import Mathlib

/-!
Shallow embedding of `bin/compare-factory-config.py`: the topology/factory
reconciliation tool.  Python dictionaries with string keys are modelled as
association lists (`List (String × List String)`); the four topology name
sets are modelled as `Finset String`.  Each definition mirrors one Python
function or code block; comments cite the corresponding source lines.
-/

namespace CompareFactoryConfig

/-- The `topology_DB` dictionary built by `get_topology_data`
(lines 165-168): four sets of name strings. -/
structure TopologyDB where
  resources : Finset String
  sites : Finset String
  facilities : Finset String
  resourceGroups : Finset String

/-- The `gfactory_DB` dictionary: resource name → list of entry names,
in insertion order.  A Python dict is an association list whose keys are
pairwise distinct; key order is insertion order. -/
abbrev FactoryIndex := List (String × List String)

/-- Key view `gfactory_DB.keys()` in dict (insertion) order. -/
def FactoryIndex.keys (g : FactoryIndex) : List String :=
  g.map Prod.fst

/-- Lookup `gfactory_DB[name]`; total with default `[]` (the code only
indexes with keys that are present). -/
def FactoryIndex.find (g : FactoryIndex) (name : String) : List String :=
  match g.lookup name with
  | some entries => entries
  | none => []

/-- The append-or-create idiom used by both loader branches
(lines 92-98 and 114-118):
`try: db[k].append(e) except KeyError: db[k] = []; db[k].append(e)`.
Appending to an existing key keeps its position; a fresh key is inserted
at the end (dict insertion order). -/
def addPair : FactoryIndex → String → String → FactoryIndex
  | [], k, e => [(k, [e])]
  | kv :: rest, k, e =>
    if kv.1 = k then (kv.1, kv.2 ++ [e]) :: rest
    else kv :: addPair rest k e

/-- Function `find_non_resource_matches` (lines 134-149).
`nonmatch_resource_names = set(gfactory_DB.keys()).difference(topology_DB[resources])`,
`match_non_resource_names = nonmatch_resource_names.intersection(resourceGroups ∪ sites ∪ facilities)`,
then a nested loop appending `(entry, name)` pairs to `ret`.
Python iterates the set `match_non_resource_names` in an unspecified hash
order; we enumerate the same set in dict key order, one of the possible
executions (the properties proved below do not depend on that order). -/
def find_non_resource_matches (g : FactoryIndex) (t : TopologyDB) :
    List (String × String) :=
  let match_non_resource_names := (FactoryIndex.keys g).filter
    (fun n => decide (n ∉ t.resources) &&
      decide (n ∈ t.resourceGroups ∪ t.sites ∪ t.facilities))
  match_non_resource_names.foldl
    (fun ret name => ret ++ (FactoryIndex.find g name).map (fun entry => (entry, name)))
    []

/-- Function `find_non_topology_matches` (lines 152-159).
`nonmatch_all_names = set(gfactory_DB.keys()).difference(resources ∪ sites ∪ facilities ∪ resourceGroups)`,
then `ret.extend(gfactory_DB[name])` for each such name (same set-order
remark as above). -/
def find_non_topology_matches (g : FactoryIndex) (t : TopologyDB) :
    List String :=
  let nonmatch_all_names := (FactoryIndex.keys g).filter
    (fun n => decide (n ∉ t.resources ∪ t.sites ∪ t.facilities ∪ t.resourceGroups))
  nonmatch_all_names.foldl (fun ret name => ret ++ FactoryIndex.find g name) []

/-! ### Factory loader, XML branch (`get_gfactory_data`, lines 80-99) -/

/-- One `attr` element of an XML entry: its `name` and `value` attributes. -/
structure FactoryAttr where
  name : String
  value : String

/-- One `entry` element: its `name` and `enabled` attributes and its
`attrs/attr` children in document order. -/
structure FactoryEntry where
  name : String
  enabled : String
  attrs : List FactoryAttr

/-- The inner `for attr in entry.findall(attrs/attr)` loop (lines 87-99):
scan the attrs in order; at the first one whose `name` is
`GLIDEIN_ResourceName`, record `(value → entry name)` and `break`. -/
def scanAttrs (g : FactoryIndex) (entryName : String) :
    List FactoryAttr → FactoryIndex
  | [] => g
  | a :: rest =>
    if a.name = "GLIDEIN_ResourceName" then addPair g a.value entryName
    else scanAttrs g entryName rest

/-- Processing of one `entry` element (lines 84-99): only entries with
`enabled == True` are scanned. -/
def processXmlEntry (g : FactoryIndex) (e : FactoryEntry) : FactoryIndex :=
  if e.enabled = "True" then scanAttrs g e.name e.attrs else g

/-- The XML branch of `get_gfactory_data` applied to the parsed
`entries/entry` elements of one document. -/
def get_gfactory_data_xml (g : FactoryIndex) (entries : List FactoryEntry) :
    FactoryIndex :=
  entries.foldl processXmlEntry g

/-! ### Factory loader, YAML branch (`get_gfactory_data`, lines 100-120)

A parsed YAML value: either a mapping or a scalar leaf.  Scalar leaves are
modelled as strings; the loader only ever distinguishes mapping values
(which support `.values()` / `.items()` / `[...]`) from non-mapping values
(on which those operations raise), so one scalar constructor suffices. -/

inductive YVal where
  | str (s : String)
  | map (entries : List (String × YVal))
deriving Repr

/-- Whether a YAML value is a mapping. -/
def YVal.isMap : YVal → Bool
  | .map _ => true
  | .str _ => false

/-- Errors of the loader abstraction.  Any uncaught Python exception while
reading a document (YAMLError, AttributeError on a non-mapping,
the unbound `data` after a printed YAMLError) terminates the run; the
spec taxonomy calls this `ParseError`. -/
inductive LoadError where
  | parseError : LoadError
deriving Repr

/-- Access `config[attrs][GLIDEIN_ResourceName]` (line 111): returns the name
when `config` is a mapping with an `attrs` mapping holding a scalar at
that key.  Any other shape raises (KeyError / TypeError), which the bare
`except` at line 119 turns into a skip, so it is `none` here. -/
def configResourceName : YVal → Option String
  | .map config =>
    match config.lookup "attrs" with
    | some (.map attrsMap) =>
      match attrsMap.lookup "GLIDEIN_ResourceName" with
      | some (.str s) => some s
      | _ => none
    | _ => none
  | .str _ => none

/-- The `for entry_name, config in entry.items()` loop (lines 110-118).
A malformed `config` raises inside the `try`; the bare `except` at line
119 does `continue`, abandoning the remaining items of this `entry`
(entries added before the malformed item stay). -/
def processItems (g : FactoryIndex) : List (String × YVal) → FactoryIndex
  | [] => g
  | (entryName, config) :: rest =>
    match configResourceName config with
    | some rname => processItems (addPair g rname entryName) rest
    | none => g

/-- The `for entry in resource.values()` loop body (lines 108-120): a
non-mapping `entry` makes `entry.items()` raise inside the `try`, which
the bare `except` turns into a skip. -/
def processEntries (g : FactoryIndex) : List YVal → FactoryIndex
  | [] => g
  | .str _ :: rest => processEntries g rest
  | .map items :: rest => processEntries (processItems g items) rest

/-- The `for resource in data.values()` loop (lines 107-120): here a
non-mapping `resource` makes `resource.values()` raise OUTSIDE any
`try`, so the loader fails. -/
def processResources (g : FactoryIndex) :
    List YVal → Except LoadError FactoryIndex
  | [] => .ok g
  | .str _ :: _ => .error .parseError
  | .map entries :: rest => processResources (processEntries g (entries.map Prod.snd)) rest

/-- The YAML branch of `get_gfactory_data` (lines 100-120) on the parsed
document.  `none` models `yaml.safe_load` failing: the YAMLError is
printed and swallowed (line 105-106) but `data` is then unbound, so
`data.values()` raises and the loader fails.  A non-mapping top level
fails the same way at `data.values()`. -/
def get_gfactory_data_yml (g : FactoryIndex) (data : Option YVal) :
    Except LoadError FactoryIndex :=
  match data with
  | none => .error .parseError
  | some (.str _) => .error .parseError
  | some (.map resources) => processResources g (resources.map Prod.snd)

/-- Whether a parsed YAML document has a loadable top-level structure:
a mapping all of whose values are themselves mappings (the two levels the
loader dereferences outside any exception handler). -/
def topLevelLoadable : Option YVal → Bool
  | some (.map resources) => resources.all (fun kv => kv.2.isMap)
  | _ => false

/-- Success test for loader results. -/
def isOkE : Except LoadError FactoryIndex → Bool
  | .ok _ => true
  | .error _ => false

/-! ### Aggregator (`run`, lines 176-184)

`run` iterates the discovered documents and feeds each through
`get_gfactory_data`, which mutates the shared `gfactory_DB` with the
append-or-create idiom (`addPair`).  Each document therefore contributes
a sequence of `(resource name, entry name)` pairs, folded into the index
in order. -/

/-- Fold the per-document `(resource name, entry name)` pairs into the
index, in extraction order. -/
def aggPairs (g : FactoryIndex) (doc : List (String × String)) : FactoryIndex :=
  doc.foldl (fun g p => addPair g p.1 p.2) g

/-- Loop `for xml in gfactory: get_gfactory_data(gfactory_DB, xml)` starting
from the empty dict `gfactory_DB = \x7b\x7d` (line 180). -/
def aggregate (docs : List (List (String × String))) : FactoryIndex :=
  docs.foldl aggPairs []

/-! ### Run skeleton and temporary-directory cleanup (lines 123-131, 162-202) -/

/-- The temporary clone directory; `writable` is the permission bit that
`remove_readonly` sets. -/
structure TempDirState where
  writable : Bool

/-- A plain `shutil.rmtree` removal attempt: succeeds unless denied by
permissions. -/
def rmtreePlain (p : TempDirState) : Bool :=
  p.writable

/-- Function `remove_readonly` (lines 123-131): `os.chmod(path, stat.S_IWRITE)`
then retry the removal; returns whether the directory is gone. -/
def remove_readonly (p : TempDirState) : Bool :=
  rmtreePlain { p with writable := true }

/-- Call `shutil.rmtree(temp_dir, onerror=remove_readonly)` (line 202): plain
removal, falling back to `remove_readonly` when denied. -/
def rmtreeWithFallback (p : TempDirState) : Bool :=
  if rmtreePlain p then true else remove_readonly p

/-- Abstract failure modes of the fallible steps of `run`. -/
inductive RunError where
  | fetchError : RunError
  | cloneError : RunError
  | parseError : RunError
deriving Repr, DecidableEq

/-- The control skeleton of `run` (lines 162-202), with the outcome of
each fallible step abstracted as a parameter.  Returns the run result
(on success, the two report lists) paired with whether the temporary
clone directory still exists when the process terminates.  The source
has NO try/finally around the body: `shutil.rmtree` is only the last
statement of the successful path, so any uncaught exception after
`tempfile.mkdtemp()` (line 171) leaves the directory behind. -/
def runModel (fetch : Except RunError TopologyDB)
    (clone : Except RunError Unit)
    (docs : Except RunError FactoryIndex)
    (tempDir : TempDirState) :
    Except RunError (List (String × String) × List String) × Bool :=
  match fetch with
  | .error e => (.error e, false)
  | .ok tdb =>
    match clone with
    | .error e => (.error e, true)
    | .ok _ =>
      match docs with
      | .error e => (.error e, true)
      | .ok gdb =>
        (.ok (find_non_resource_matches gdb tdb, find_non_topology_matches gdb tdb),
          !rmtreeWithFallback tempDir)

/-! ### State-passing reconciler (for the frame property)

The reconciler functions receive the two databases and loop over set
views of them; the loop bodies only read the databases and append to the
local `ret`.  Threading both databases through every loop iteration makes
the absence of writes a provable statement. -/

/-- Variant of `find_non_resource_matches` with `(gfactory_DB, topology_DB)` threaded
through the `for name in match_non_resource_names` loop as explicit
state. -/
def find_non_resource_matches_st (g : FactoryIndex) (t : TopologyDB) :
    List (String × String) × FactoryIndex × TopologyDB :=
  let match_non_resource_names := (FactoryIndex.keys g).filter
    (fun n => decide (n ∉ t.resources) &&
      decide (n ∈ t.resourceGroups ∪ t.sites ∪ t.facilities))
  match_non_resource_names.foldl
    (fun acc name =>
      (acc.1 ++ (FactoryIndex.find acc.2.1 name).map (fun entry => (entry, name)),
        acc.2))
    ([], g, t)

/-- Variant of `find_non_topology_matches` with both databases threaded through the
loop as explicit state. -/
def find_non_topology_matches_st (g : FactoryIndex) (t : TopologyDB) :
    List String × FactoryIndex × TopologyDB :=
  let nonmatch_all_names := (FactoryIndex.keys g).filter
    (fun n => decide (n ∉ t.resources ∪ t.sites ∪ t.facilities ∪ t.resourceGroups))
  nonmatch_all_names.foldl
    (fun acc name => (acc.1 ++ FactoryIndex.find acc.2.1 name, acc.2))
    ([], g, t)

/-- Remove one key from the index (used to state that a matched name is
excluded from the reports). -/
def FactoryIndex.eraseKey (g : FactoryIndex) (n : String) : FactoryIndex :=
  g.filter (fun kv => !(kv.1 == n))

/-! ### Basic lemmas -/

/-- A loop of the shape `for a in l: ret += f a` is a flat map. -/
theorem foldl_append_eq_flatMap {α β : Type} (f : α → List β) (l : List α)
    (init : List β) :
    l.foldl (fun acc a => acc ++ f a) init = init ++ l.flatMap f := by
  induction l generalizing init with
  | nil => simp
  | cons a rest ih => simp [ih, List.flatMap_cons]

theorem find_nil (k : String) : FactoryIndex.find [] k = [] := rfl

theorem find_cons (a : String) (b : List String) (g : FactoryIndex) (k : String) :
    FactoryIndex.find ((a, b) :: g) k =
      if a = k then b else FactoryIndex.find g k := by
  simp only [FactoryIndex.find, List.lookup]
  by_cases h : a = k
  · subst h
    simp
  · have hb : (k == a) = false := beq_eq_false_iff_ne.mpr (Ne.symm h)
    simp [hb, h]

theorem find_addPair (g : FactoryIndex) (k e k' : String) :
    FactoryIndex.find (addPair g k e) k' =
      if k' = k then FactoryIndex.find g k ++ [e] else FactoryIndex.find g k' := by
  induction g with
  | nil =>
    by_cases h : k' = k
    · subst h
      simp [addPair, find_cons, find_nil]
    · have : ¬ k = k' := fun hc => h hc.symm
      simp [addPair, find_cons, find_nil, h, this]
  | cons kv rest ih =>
    obtain ⟨a, b⟩ := kv
    by_cases ha : a = k
    · simp only [addPair, if_pos ha]
      by_cases h : k' = k
      · subst h
        simp [find_cons, ha]
      · have hne : ¬ a = k' := fun hc => h (by rw [← hc, ha])
        simp [find_cons, hne, h]
    · simp only [addPair, if_neg ha]
      by_cases h : k' = k
      · subst h
        have hne : ¬ a = k' := ha
        simp [find_cons, hne, ih]
      · by_cases h2 : a = k' <;> simp [find_cons, h2, h, ih]

theorem mem_keys_addPair (g : FactoryIndex) (k e k' : String) :
    k' ∈ FactoryIndex.keys (addPair g k e) ↔
      k' ∈ FactoryIndex.keys g ∨ k' = k := by
  induction g with
  | nil => simp [addPair, FactoryIndex.keys]
  | cons kv rest ih =>
    obtain ⟨a, b⟩ := kv
    simp only [addPair]
    by_cases ha : a = k
    · rw [if_pos ha]
      subst ha
      simp only [FactoryIndex.keys, List.map_cons, List.mem_cons]
      tauto
    · rw [if_neg ha]
      simp only [FactoryIndex.keys, List.map_cons, List.mem_cons]
      simp only [FactoryIndex.keys] at ih
      rw [ih]
      tauto

/-- The mismatch report in flat-map normal form. -/
theorem find_non_resource_matches_eq (g : FactoryIndex) (t : TopologyDB) :
    find_non_resource_matches g t =
      ((FactoryIndex.keys g).filter
        (fun n => decide (n ∉ t.resources) &&
          decide (n ∈ t.resourceGroups ∪ t.sites ∪ t.facilities))).flatMap
        (fun name => (FactoryIndex.find g name).map (fun entry => (entry, name))) := by
  simp [find_non_resource_matches, foldl_append_eq_flatMap]

/-- The orphan report in flat-map normal form. -/
theorem find_non_topology_matches_eq (g : FactoryIndex) (t : TopologyDB) :
    find_non_topology_matches g t =
      ((FactoryIndex.keys g).filter
        (fun n => decide (n ∉ t.resources ∪ t.sites ∪ t.facilities ∪ t.resourceGroups))).flatMap
        (FactoryIndex.find g) := by
  simp [find_non_topology_matches, foldl_append_eq_flatMap]

/-! ### Example inputs (from the §8 scenarios of the spec) used by witnesses -/

/-- Factory of the spec scenario: `S1` is a site name, `R1` a resource
name, `X9` matches nothing. -/
def gEx1 : FactoryIndex := [("S1", ["EntryA"]), ("R1", ["EntryB"]), ("X9", ["EntryC"])]

/-- Registry of the spec scenario. -/
def tEx1 : TopologyDB := ⟨{"R1"}, {"S1"}, ∅, ∅⟩

/-- Two one-pair documents sharing the resource name `R2`. -/
def docsEx4a : List (List (String × String)) := [[("R2", "EntryD")], [("R2", "EntryE")]]

/-- The same two documents in the other order. -/
def docsEx4b : List (List (String × String)) := [[("R2", "EntryE")], [("R2", "EntryD")]]

/-- Registry for the priority scenario: `S1` is both a resource and a
site. -/
def tEx7 : TopologyDB := ⟨{"S1", "R1"}, {"S1"}, ∅, ∅⟩

/-- Factory for the priority scenario. -/
def gEx7 : FactoryIndex := [("S1", ["EntryA"]), ("R1", ["EntryB"])]

/-! ### Lemmas about the mismatch report -/

theorem filter_snd_map_block (xs : List String) (n name : String) :
    ((xs.map (fun e => (e, n))).filter (fun p => p.2 == name)) =
      if n = name then xs.map (fun e => (e, n)) else [] := by
  induction xs with
  | nil => simp
  | cons x rest ih =>
    by_cases h : n = name <;> simp [h, ih]

theorem filter_flatMap_blocks (g : FactoryIndex) (L : List String) (name : String)
    (hnd : L.Nodup) :
    ((L.flatMap (fun n => (FactoryIndex.find g n).map (fun e => (e, n)))).filter
        (fun p => p.2 == name)).map Prod.fst =
      if name ∈ L then FactoryIndex.find g name else [] := by
  induction L with
  | nil => simp
  | cons n rest ih =>
    have hnotin : n ∉ rest := (List.nodup_cons.mp hnd).1
    have hrest := ih (List.nodup_cons.mp hnd).2
    simp only [List.flatMap_cons, List.filter_append, List.map_append,
      filter_snd_map_block]
    by_cases h : n = name
    · subst h
      rw [if_pos rfl, if_pos (List.mem_cons_self n rest)]
      rw [hrest, if_neg hnotin]
      simp [List.map_map, Function.comp_def]
    · rw [if_neg h, hrest]
      have hmem : (name ∈ n :: rest) ↔ name ∈ rest := by
        simp [List.mem_cons]
        intro hc
        exact absurd hc.symm h
      by_cases h2 : name ∈ rest
      · rw [if_pos h2, if_pos (hmem.mpr h2)]
        simp
      · rw [if_neg h2, if_neg (fun hc => h2 (hmem.mp hc))]
        simp

/-- Any pair in the mismatch report carries a name that is a factory key,
is not a registry resource, and is in one of the three other registry
sets. -/
theorem mismatch_snd_conditions (g : FactoryIndex) (t : TopologyDB)
    {p : String × String} (hp : p ∈ find_non_resource_matches g t) :
    p.2 ∈ FactoryIndex.keys g ∧ p.2 ∉ t.resources ∧
      p.2 ∈ t.resourceGroups ∪ t.sites ∪ t.facilities := by
  rw [find_non_resource_matches_eq] at hp
  rcases List.mem_flatMap.mp hp with ⟨name, hname, hpmem⟩
  rcases List.mem_filter.mp hname with ⟨hkeys, hcond⟩
  rcases List.mem_map.mp hpmem with ⟨e, _, hpe⟩
  subst hpe
  simp only [Bool.and_eq_true, decide_eq_true_eq] at hcond
  exact ⟨hkeys, hcond.1, hcond.2⟩

/-! ### Theorems for the claims -/

/-- C1: `find_non_resource_matches` returns exactly the pairs
`(entry_name, name)` for the names in
`(keys(factory) \ resources) ∩ (resourceGroups ∪ sites ∪ facilities)`,
one pair per entry of `factory[name]`, in the encounter order of
`factory[name]`: the name of every output pair satisfies the membership
conditions, and for each name the first components of the output pairs
carrying it are exactly `factory[name]` (and none when the name fails
the conditions). -/
theorem find_non_resource_matches_exact (g : FactoryIndex) (t : TopologyDB)
    (hnd : (FactoryIndex.keys g).Nodup) :
    (∀ p ∈ find_non_resource_matches g t,
        p.2 ∈ FactoryIndex.keys g ∧ p.2 ∉ t.resources ∧
          p.2 ∈ t.resourceGroups ∪ t.sites ∪ t.facilities) ∧
    (∀ name : String,
        ((find_non_resource_matches g t).filter (fun p => p.2 == name)).map Prod.fst =
          if name ∈ FactoryIndex.keys g ∧ name ∉ t.resources ∧
              name ∈ t.resourceGroups ∪ t.sites ∪ t.facilities
          then FactoryIndex.find g name else []) := by
  constructor
  · intro p hp
    exact mismatch_snd_conditions g t hp
  · intro name
    rw [find_non_resource_matches_eq]
    have hL : ((FactoryIndex.keys g).filter
        (fun n => decide (n ∉ t.resources) &&
          decide (n ∈ t.resourceGroups ∪ t.sites ∪ t.facilities))).Nodup :=
      hnd.filter _
    rw [filter_flatMap_blocks g _ name hL]
    have hmem : (name ∈ (FactoryIndex.keys g).filter
        (fun n => decide (n ∉ t.resources) &&
          decide (n ∈ t.resourceGroups ∪ t.sites ∪ t.facilities))) ↔
        (name ∈ FactoryIndex.keys g ∧ name ∉ t.resources ∧
          name ∈ t.resourceGroups ∪ t.sites ∪ t.facilities) := by
      simp [List.mem_filter, and_assoc]
    by_cases hc : name ∈ FactoryIndex.keys g ∧ name ∉ t.resources ∧
        name ∈ t.resourceGroups ∪ t.sites ∪ t.facilities
    · rw [if_pos (hmem.mpr hc), if_pos hc]
    · rw [if_neg (fun h => hc (hmem.mp h)), if_neg hc]

/-- Witness for C1 on the §8 scenario of the spec. -/
theorem find_non_resource_matches_exact_instance :
    (FactoryIndex.keys gEx1).Nodup ∧
    ((∀ p ∈ find_non_resource_matches gEx1 tEx1,
        p.2 ∈ FactoryIndex.keys gEx1 ∧ p.2 ∉ tEx1.resources ∧
          p.2 ∈ tEx1.resourceGroups ∪ tEx1.sites ∪ tEx1.facilities) ∧
    (∀ name : String,
        ((find_non_resource_matches gEx1 tEx1).filter (fun p => p.2 == name)).map Prod.fst =
          if name ∈ FactoryIndex.keys gEx1 ∧ name ∉ tEx1.resources ∧
              name ∈ tEx1.resourceGroups ∪ tEx1.sites ∪ tEx1.facilities
          then FactoryIndex.find gEx1 name else [])) :=
  ⟨by decide, find_non_resource_matches_exact gEx1 tEx1 (by decide)⟩

/-- C2: `find_non_topology_matches` is the concatenation of
`factory[name]` over the factory keys in none of the four registry sets,
and as a set its output equals the union of those `factory[name]`. -/
theorem find_non_topology_matches_spec (g : FactoryIndex) (t : TopologyDB) :
    find_non_topology_matches g t =
      ((FactoryIndex.keys g).filter
        (fun n => decide (n ∉ t.resources ∪ t.sites ∪ t.facilities ∪ t.resourceGroups))).flatMap
        (FactoryIndex.find g) ∧
    ∀ e, e ∈ find_non_topology_matches g t ↔
      ∃ name, name ∈ FactoryIndex.keys g ∧
        name ∉ t.resources ∪ t.sites ∪ t.facilities ∪ t.resourceGroups ∧
        e ∈ FactoryIndex.find g name := by
  refine ⟨find_non_topology_matches_eq g t, ?_⟩
  intro e
  rw [find_non_topology_matches_eq]
  simp [List.mem_flatMap, List.mem_filter, and_assoc]

/-- C3: no source name contributes to both reports: the names carried by
the mismatch pairs and the orphan keys feeding the orphan report are
disjoint sets. -/
theorem reports_disjoint_source_names (g : FactoryIndex) (t : TopologyDB) :
    ((find_non_resource_matches g t).map Prod.snd).toFinset ∩
      ((FactoryIndex.keys g).filter
        (fun n => decide (n ∉ t.resources ∪ t.sites ∪ t.facilities ∪ t.resourceGroups))).toFinset
      = ∅ := by
  rw [Finset.eq_empty_iff_forall_not_mem]
  intro n hn
  rw [Finset.mem_inter, List.mem_toFinset, List.mem_toFinset] at hn
  obtain ⟨h1, h2⟩ := hn
  rcases List.mem_map.mp h1 with ⟨p, hp, hsnd⟩
  have hcond := (mismatch_snd_conditions g t hp).2.2
  rw [hsnd] at hcond
  rcases List.mem_filter.mp h2 with ⟨_, horphan⟩
  simp only [decide_eq_true_eq] at horphan
  simp only [Finset.mem_union] at hcond horphan
  tauto

/-- C8: an empty factory index yields empty reports for any registry. -/
theorem empty_factory_reports_empty (t : TopologyDB) :
    find_non_resource_matches [] t = [] ∧ find_non_topology_matches [] t = [] :=
  ⟨rfl, rfl⟩

/-! ### Aggregation lemmas (C4) -/

theorem find_aggPairs (g : FactoryIndex) (ps : List (String × String)) (k : String) :
    FactoryIndex.find (aggPairs g ps) k =
      FactoryIndex.find g k ++ (ps.filter (fun p => p.1 == k)).map Prod.snd := by
  induction ps generalizing g with
  | nil => simp [aggPairs]
  | cons p rest ih =>
    obtain ⟨k0, e⟩ := p
    simp only [aggPairs, List.foldl_cons] at *
    rw [ih (addPair g k0 e), find_addPair]
    by_cases h : k = k0
    · subst h
      simp
    · have hb : (k0 == k) = false := beq_eq_false_iff_ne.mpr (fun hc => h hc.symm)
      simp [h, hb]

theorem mem_keys_aggPairs (g : FactoryIndex) (ps : List (String × String)) (k : String) :
    k ∈ FactoryIndex.keys (aggPairs g ps) ↔
      k ∈ FactoryIndex.keys g ∨ ∃ p ∈ ps, p.1 = k := by
  induction ps generalizing g with
  | nil => simp [aggPairs]
  | cons p rest ih =>
    obtain ⟨k0, e⟩ := p
    simp only [aggPairs, List.foldl_cons] at *
    rw [ih (addPair g k0 e), mem_keys_addPair]
    simp only [List.mem_cons]
    constructor
    · intro h
      rcases h with (h | h) | ⟨q, hq, hqk⟩
      · exact Or.inl h
      · exact Or.inr ⟨(k0, e), Or.inl rfl, h.symm⟩
      · exact Or.inr ⟨q, Or.inr hq, hqk⟩
    · intro h
      rcases h with h | ⟨q, hq | hq, hqk⟩
      · exact Or.inl (Or.inl h)
      · subst hq
        exact Or.inl (Or.inr hqk.symm)
      · exact Or.inr ⟨q, hq, hqk⟩

theorem aggregate_eq_flatten (docs : List (List (String × String))) :
    aggregate docs = aggPairs [] docs.flatten := by
  suffices h : ∀ g, docs.foldl aggPairs g = aggPairs g docs.flatten by
    exact h []
  induction docs with
  | nil => intro g; rfl
  | cons doc rest ih =>
    intro g
    simp only [List.foldl_cons, List.flatten_cons]
    rw [ih (aggPairs g doc)]
    simp [aggPairs, List.foldl_append]

/-! ### Key-erasure lemmas (C7) -/

theorem keys_eraseKey (g : FactoryIndex) (n : String) :
    FactoryIndex.keys (FactoryIndex.eraseKey g n) =
      (FactoryIndex.keys g).filter (fun k => !(k == n)) := by
  induction g with
  | nil => rfl
  | cons kv rest ih =>
    obtain ⟨a, b⟩ := kv
    by_cases h : a = n
    · subst h
      simp [FactoryIndex.eraseKey, FactoryIndex.keys, List.filter_cons] at *
      exact ih
    · have hb : (a == n) = false := beq_eq_false_iff_ne.mpr h
      simp [FactoryIndex.eraseKey, FactoryIndex.keys, List.filter_cons, hb] at *
      exact ih

theorem find_eraseKey (g : FactoryIndex) (n m : String) (h : m ≠ n) :
    FactoryIndex.find (FactoryIndex.eraseKey g n) m = FactoryIndex.find g m := by
  induction g with
  | nil => rfl
  | cons kv rest ih =>
    obtain ⟨a, b⟩ := kv
    by_cases ha : a = n
    · subst ha
      have hm : ¬ a = m := fun hc => h hc.symm
      have hdrop : FactoryIndex.eraseKey ((a, b) :: rest) a =
          FactoryIndex.eraseKey rest a := by
        simp [FactoryIndex.eraseKey]
      rw [hdrop, ih, find_cons, if_neg hm]
    · have hb : (a == n) = false := beq_eq_false_iff_ne.mpr ha
      have hkeep : FactoryIndex.eraseKey ((a, b) :: rest) n =
          (a, b) :: FactoryIndex.eraseKey rest n := by
        simp [FactoryIndex.eraseKey, hb]
      rw [hkeep, find_cons, find_cons, ih]

theorem filter_absorb {α : Type} (l : List α) (p q : α → Bool)
    (himp : ∀ a, q a = true → p a = true) :
    (l.filter p).filter q = l.filter q := by
  induction l with
  | nil => rfl
  | cons a rest ih =>
    by_cases hq : q a = true
    · have hp := himp a hq
      simp [List.filter_cons, hp, hq, ih]
    · have hq2 : q a = false := Bool.eq_false_iff.mpr hq
      by_cases hp : p a = true
      · simp [List.filter_cons, hp, hq2, ih]
      · have hp2 : p a = false := Bool.eq_false_iff.mpr hp
        simp [List.filter_cons, hp2, hq2, ih]

theorem flatMap_congr_mem {α β : Type} (l : List α) (f f2 : α → List β)
    (h : ∀ a ∈ l, f a = f2 a) : l.flatMap f = l.flatMap f2 := by
  induction l with
  | nil => rfl
  | cons a rest ih =>
    simp only [List.flatMap_cons]
    rw [h a (List.mem_cons_self a rest), ih (fun b hb => h b (List.mem_cons_of_mem a hb))]

/-! ### State-threading lemmas (C9) -/

theorem st1_foldl (L : List String) (acc0 : List (String × String))
    (g : FactoryIndex) (t : TopologyDB) :
    L.foldl (fun acc name =>
        (acc.1 ++ (FactoryIndex.find acc.2.1 name).map (fun entry => (entry, name)), acc.2))
      (acc0, g, t) =
      (acc0 ++ L.flatMap (fun name =>
        (FactoryIndex.find g name).map (fun entry => (entry, name))), g, t) := by
  induction L generalizing acc0 with
  | nil => simp
  | cons a rest ih => simp [List.flatMap_cons, ih, List.append_assoc]

theorem st2_foldl (L : List String) (acc0 : List String)
    (g : FactoryIndex) (t : TopologyDB) :
    L.foldl (fun acc name => (acc.1 ++ FactoryIndex.find acc.2.1 name, acc.2))
      (acc0, g, t) =
      (acc0 ++ L.flatMap (FactoryIndex.find g), g, t) := by
  induction L generalizing acc0 with
  | nil => simp
  | cons a rest ih => simp [List.flatMap_cons, ih, List.append_assoc]

/-! ### YAML loader lemmas (C5) -/

theorem isOkE_processResources (g : FactoryIndex) (vs : List YVal) :
    isOkE (processResources g vs) = vs.all YVal.isMap := by
  induction vs generalizing g with
  | nil => rfl
  | cons v rest ih =>
    cases v with
    | str s => simp [processResources, isOkE, YVal.isMap]
    | map entries => simp [processResources, YVal.isMap, ih]

theorem processItems_stop (g : FactoryIndex) (itemsPre itemsPost : List (String × YVal))
    (badKey : String) (badC : YVal) (h : configResourceName badC = none) :
    processItems g (itemsPre ++ (badKey, badC) :: itemsPost) = processItems g itemsPre := by
  induction itemsPre generalizing g with
  | nil => simp [processItems, h]
  | cons item rest ih =>
    obtain ⟨n, c⟩ := item
    cases hc : configResourceName c with
    | some rname =>
      simp only [List.cons_append, processItems, hc]
      exact ih (addPair g rname n)
    | none => simp only [List.cons_append, processItems, hc]

/-! ### Run-skeleton lemma (C6) -/

theorem rmtree_fallback_total (p : TempDirState) : rmtreeWithFallback p = true := by
  obtain ⟨w⟩ := p
  cases w <;> rfl

/-- Success test for run results (any payload type). -/
def isOkRun {α : Type} : Except RunError α → Bool
  | .ok _ => true
  | .error _ => false

/-! ### Theorems for the remaining claims -/

/-- C4: aggregation is order-independent up to per-key entry order: a
permutation of the document sequence yields the same key set and, for
every key, the same multiset of entry names. -/
theorem aggregate_perm_invariant (docs docs2 : List (List (String × String)))
    (h : docs.Perm docs2) :
    (∀ k, k ∈ FactoryIndex.keys (aggregate docs) ↔
        k ∈ FactoryIndex.keys (aggregate docs2)) ∧
    (∀ k, ((FactoryIndex.find (aggregate docs) k : Multiset String) =
        (FactoryIndex.find (aggregate docs2) k : Multiset String))) := by
  have hflat : docs.flatten.Perm docs2.flatten := h.flatten
  constructor
  · intro k
    rw [aggregate_eq_flatten, aggregate_eq_flatten, mem_keys_aggPairs, mem_keys_aggPairs]
    constructor
    · intro hk
      rcases hk with hk | ⟨p, hp, hpk⟩
      · simp [FactoryIndex.keys] at hk
      · exact Or.inr ⟨p, hflat.mem_iff.mp hp, hpk⟩
    · intro hk
      rcases hk with hk | ⟨p, hp, hpk⟩
      · simp [FactoryIndex.keys] at hk
      · exact Or.inr ⟨p, hflat.mem_iff.mpr hp, hpk⟩
  · intro k
    rw [aggregate_eq_flatten, aggregate_eq_flatten, find_aggPairs, find_aggPairs]
    have hperm : ((docs.flatten.filter (fun p => p.1 == k)).map Prod.snd).Perm
        ((docs2.flatten.filter (fun p => p.1 == k)).map Prod.snd) :=
      (hflat.filter _).map _
    simpa [find_nil] using Multiset.coe_eq_coe.mpr hperm

/-- Witness for C4 on the merge scenario of the spec. -/
theorem aggregate_perm_invariant_instance :
    docsEx4a.Perm docsEx4b ∧
    ((∀ k, k ∈ FactoryIndex.keys (aggregate docsEx4a) ↔
        k ∈ FactoryIndex.keys (aggregate docsEx4b)) ∧
    (∀ k, ((FactoryIndex.find (aggregate docsEx4a) k : Multiset String) =
        (FactoryIndex.find (aggregate docsEx4b) k : Multiset String)))) :=
  ⟨by decide, aggregate_perm_invariant docsEx4a docsEx4b (by decide)⟩

/-- C7: a factory name present in `registry.resources` is excluded from
both reports even when it also occurs in another registry set: deleting
its key from the factory index changes neither report. -/
theorem resources_member_excluded (g : FactoryIndex) (t : TopologyDB) (n : String)
    (h : n ∈ t.resources) :
    find_non_resource_matches g t =
      find_non_resource_matches (FactoryIndex.eraseKey g n) t ∧
    find_non_topology_matches g t =
      find_non_topology_matches (FactoryIndex.eraseKey g n) t := by
  constructor
  · rw [find_non_resource_matches_eq, find_non_resource_matches_eq, keys_eraseKey]
    rw [filter_absorb]
    · apply flatMap_congr_mem
      intro m hm
      rcases List.mem_filter.mp hm with ⟨_, hcond⟩
      simp only [Bool.and_eq_true, decide_eq_true_eq] at hcond
      have hmn : m ≠ n := fun hc => hcond.1 (hc ▸ h)
      rw [find_eraseKey g n m hmn]
    · intro m hm
      simp only [Bool.and_eq_true, decide_eq_true_eq] at hm
      have hmn : m ≠ n := fun hc => hm.1 (hc ▸ h)
      simpa using hmn
  · rw [find_non_topology_matches_eq, find_non_topology_matches_eq, keys_eraseKey]
    rw [filter_absorb]
    · apply flatMap_congr_mem
      intro m hm
      rcases List.mem_filter.mp hm with ⟨_, hcond⟩
      simp only [decide_eq_true_eq, Finset.mem_union, not_or] at hcond
      have hmn : m ≠ n := fun hc => hcond.1.1.1 (hc ▸ h)
      exact (find_eraseKey g n m hmn).symm
    · intro m hm
      simp only [decide_eq_true_eq, Finset.mem_union, not_or] at hm
      have hmn : m ≠ n := fun hc => hm.1.1.1 (hc ▸ h)
      simpa using hmn

/-- Witness for C7: `S1` is both a resource and a site; its key is
irrelevant to both reports. -/
theorem resources_member_excluded_instance :
    "S1" ∈ tEx7.resources ∧
    (find_non_resource_matches gEx7 tEx7 =
      find_non_resource_matches (FactoryIndex.eraseKey gEx7 "S1") tEx7 ∧
    find_non_topology_matches gEx7 tEx7 =
      find_non_topology_matches (FactoryIndex.eraseKey gEx7 "S1") tEx7) :=
  ⟨by decide, resources_member_excluded gEx7 tEx7 "S1" (by decide)⟩

/-- C9: the reconciler functions do not modify their inputs: threading
both databases through every loop iteration returns them unchanged, and
the computed reports coincide with the pure versions. -/
theorem reconciler_frame (g : FactoryIndex) (t : TopologyDB) :
    (find_non_resource_matches_st g t).2 = (g, t) ∧
    (find_non_topology_matches_st g t).2 = (g, t) ∧
    (find_non_resource_matches_st g t).1 = find_non_resource_matches g t ∧
    (find_non_topology_matches_st g t).1 = find_non_topology_matches g t := by
  have h1 : find_non_resource_matches_st g t =
      (find_non_resource_matches g t, g, t) := by
    rw [find_non_resource_matches_st, st1_foldl, find_non_resource_matches_eq]
    simp
  have h2 : find_non_topology_matches_st g t =
      (find_non_topology_matches g t, g, t) := by
    rw [find_non_topology_matches_st, st2_foldl, find_non_topology_matches_eq]
    simp
  rw [h1, h2]
  exact ⟨rfl, rfl, rfl, rfl⟩

/-- C10: for an enabled XML entry, only the first `attr` named
`GLIDEIN_ResourceName` is recorded — the entry contributes exactly the
one association `(a.value → entry name)`, whatever `attr` elements
(matching or not) follow it. -/
theorem xml_entry_first_attr_only (g : FactoryIndex) (entryName : String)
    (attrsPre attrsPost : List FactoryAttr) (a : FactoryAttr)
    (ha : a.name = "GLIDEIN_ResourceName")
    (hpre : ∀ b ∈ attrsPre, b.name ≠ "GLIDEIN_ResourceName") :
    processXmlEntry g ⟨entryName, "True", attrsPre ++ a :: attrsPost⟩ =
      addPair g a.value entryName := by
  show (if ("True" : String) = "True"
      then scanAttrs g entryName (attrsPre ++ a :: attrsPost) else g) =
    addPair g a.value entryName
  rw [if_pos rfl]
  induction attrsPre with
  | nil => simp [scanAttrs, ha]
  | cons b rest ih =>
    have hb : b.name ≠ "GLIDEIN_ResourceName" := hpre b (List.mem_cons_self b rest)
    simp only [List.cons_append, scanAttrs, if_neg hb]
    exact ih (fun c hc => hpre c (List.mem_cons_of_mem b hc))

/-- Witness for C10: an enabled entry with a decoy attr, then two attrs
named `GLIDEIN_ResourceName`; only the first (`R1`) is recorded. -/
theorem xml_entry_first_attr_only_instance :
    (FactoryAttr.mk "GLIDEIN_ResourceName" "R1").name = "GLIDEIN_ResourceName" ∧
    (∀ b ∈ [FactoryAttr.mk "Other" "x"], b.name ≠ "GLIDEIN_ResourceName") ∧
    processXmlEntry [] ⟨"entry1", "True",
        [⟨"Other", "x"⟩, ⟨"GLIDEIN_ResourceName", "R1"⟩, ⟨"GLIDEIN_ResourceName", "R2"⟩]⟩ =
      addPair [] "R1" "entry1" :=
  ⟨rfl, by decide,
    xml_entry_first_attr_only [] "entry1" [⟨"Other", "x"⟩]
      [⟨"GLIDEIN_ResourceName", "R2"⟩] ⟨"GLIDEIN_ResourceName", "R1"⟩ rfl (by decide)⟩

/-- C5 counterexample: a malformed per-entry record is NOT merely
excluded.  In the document
`top → mid → (e1: "x", e2: (attrs: (GLIDEIN_ResourceName: R1)))`
the malformed record `e1` makes the bare `except` at line 119 `continue`
to the next entry mapping, so the well-formed sibling `e2` is never
recorded: the loader returns the empty index, while with the malformed
record removed it records `(R1 → e2)`. -/
theorem yaml_malformed_record_not_only_excluded :
    get_gfactory_data_yml [] (some (.map [("top", .map [("mid",
        .map [("e1", .str "x"),
          ("e2", .map [("attrs", .map [("GLIDEIN_ResourceName", .str "R1")])])])])])) =
      .ok [] ∧
    get_gfactory_data_yml [] (some (.map [("top", .map [("mid",
        .map [("e2", .map [("attrs", .map [("GLIDEIN_ResourceName", .str "R1")])])])])])) =
      .ok [("R1", ["e2"])] :=
  ⟨rfl, rfl⟩

/-- C5 (amended): the YAML loader fails exactly when the top-level
structure is not loadable (no parse, non-mapping top level, or a
non-mapping value at the resource level) — so it never fails because of
a malformed per-entry record — and a malformed per-entry record is
skipped silently, but the skip abandons the rest of its entry mapping:
the result is that of the same document with the entry mapping truncated
just before the malformed record (records before it kept, the malformed
record and everything after it excluded). -/
theorem yaml_loader_failure_amended :
    (∀ (g : FactoryIndex) (data : Option YVal),
        isOkE (get_gfactory_data_yml g data) = topLevelLoadable data) ∧
    (∀ (g : FactoryIndex) (resName : String) (others : List (String × YVal))
        (entriesRest : List (String × YVal)) (entryKey : String)
        (itemsPre itemsPost : List (String × YVal)) (badKey : String) (badC : YVal),
        configResourceName badC = none →
        get_gfactory_data_yml g (some (.map ((resName,
            .map ((entryKey, .map (itemsPre ++ (badKey, badC) :: itemsPost))
              :: entriesRest)) :: others))) =
          get_gfactory_data_yml g (some (.map ((resName,
            .map ((entryKey, .map itemsPre) :: entriesRest)) :: others)))) := by
  constructor
  · intro g data
    match data with
    | none => rfl
    | some (.str s) => rfl
    | some (.map resources) =>
      show isOkE (processResources g (resources.map Prod.snd)) =
        resources.all (fun kv => kv.2.isMap)
      rw [isOkE_processResources]
      induction resources with
      | nil => rfl
      | cons kv rest ih => simp [List.all_cons, ih]
  · intro g resName others entriesRest entryKey itemsPre itemsPost badKey badC h
    simp only [get_gfactory_data_yml, List.map_cons, processResources, processEntries]
    rw [processItems_stop g itemsPre itemsPost badKey badC h]

/-- Witness for the amended C5 on the counterexample document: the
malformed record `(e1, "x")` truncates its entry mapping at position
zero. -/
theorem yaml_loader_failure_amended_instance :
    configResourceName (.str "x") = none ∧
    get_gfactory_data_yml [] (some (.map [("top", .map [("mid",
        .map ([] ++ ("e1", YVal.str "x") ::
          [("e2", .map [("attrs", .map [("GLIDEIN_ResourceName", .str "R1")])])]))])])) =
      get_gfactory_data_yml [] (some (.map [("top", .map [("mid", .map [])])])) :=
  ⟨rfl,
    yaml_loader_failure_amended.2 [] "top" [] [] "mid" []
      [("e2", .map [("attrs", .map [("GLIDEIN_ResourceName", .str "R1")])])]
      "e1" (.str "x") rfl⟩

/-- C6 counterexample: on the exit path where document parsing fails, the
run terminates with an error and the temporary clone directory is NOT
removed — there is no try/finally around the body of `run`. -/
theorem run_leaves_tempdir_on_parse_failure :
    (runModel (.ok ⟨∅, ∅, ∅, ∅⟩) (.ok ()) (.error .parseError) ⟨true⟩).1 =
      .error .parseError ∧
    (runModel (.ok ⟨∅, ∅, ∅, ∅⟩) (.ok ()) (.error .parseError) ⟨true⟩).2 = true :=
  ⟨rfl, rfl⟩

/-- C6 (amended): the temporary directory is still present at
termination exactly when it was acquired (the registry fetch succeeded)
and the run did not complete successfully; on the successful path it is
always removed, the forced-permission fallback handling a denied plain
removal. -/
theorem tempdir_removal_characterization :
    (∀ (fetch : Except RunError TopologyDB) (clone : Except RunError Unit)
        (docs : Except RunError FactoryIndex) (tempDir : TempDirState),
        (runModel fetch clone docs tempDir).2 =
          (isOkRun fetch && !isOkRun (runModel fetch clone docs tempDir).1)) ∧
    (∀ p, rmtreeWithFallback p = true) := by
  constructor
  · intro fetch clone docs tempDir
    cases fetch with
    | error e => rfl
    | ok tdb =>
      cases clone with
      | error e => rfl
      | ok u =>
        cases docs with
        | error e => rfl
        | ok gdb => simp [runModel, isOkRun, rmtree_fallback_total]
  · exact rmtree_fallback_total

end CompareFactoryConfig
